import Mathlib

/-!
A shallow embedding of `ratom.py` (vastri/ratom), the client half of a
remote-editing protocol, together with proofs about its command loop,
open-frame encoder, connection setup and atomic-write routine.

Streams over the socket are modelled as `List Char` (the source works on a
text-mode file object, reading lines and fixed-length character spans).
The local filesystem is modelled as an association list from paths to file
contents; directories and metadata are out of scope of the claims.
-/

set_option autoImplicit false

namespace Ratom

/-- Whitespace characters recognized by Python's `str.strip()`
(for the character set appearing on this wire protocol). -/
def isWs (c : Char) : Bool :=
  c = ' ' || c = '\t' || c = '\n' || c = '\r' || c = '\x0b' || c = '\x0c'

/-- Python `str.strip()`: remove leading and trailing whitespace. -/
def pyStrip (cs : List Char) : List Char :=
  ((cs.dropWhile isWs).reverse.dropWhile isWs).reverse

/-- Python `str.split(':', n)`: split on at most `n` colons, keeping the
remainder (with any further colons) as the last part. -/
def splitColon : Nat → List Char → List (List Char)
  | _, [] => [[]]
  | n, c :: cs =>
    if c = ':' then
      match n with
      | 0 =>
        match splitColon 0 cs with
        | [] => [[c]]
        | p :: ps => (c :: p) :: ps
      | m + 1 => [] :: splitColon m cs
    else
      match splitColon n cs with
      | [] => [[c]]
      | p :: ps => (c :: p) :: ps

/-- `__parse_line` (ratom.py line 90): strip the line, split on at most two
colons, and strip each item. -/
def parse_line (line : List Char) : List (List Char) :=
  (splitColon 2 (pyStrip line)).map pyStrip

/-- Python tuple unpacking `a, b = xs`: succeeds exactly when the list has
two elements; otherwise raises `ValueError` (modelled as `none`). -/
def unpack2 {α : Type} : List α → Option (α × α)
  | [a, b] => some (a, b)
  | _ => none

/-- Python `int(s)` on an already-stripped string, for the decimal numerals
this protocol carries: all-digit nonempty strings parse, anything else
raises `ValueError` (modelled as `none`). -/
def digitsVal (cs : List Char) : Option Nat :=
  if cs ≠ [] ∧ cs.all Char.isDigit then
    some (cs.foldl (fun a c => a * 10 + (c.toNat - 48)) 0)
  else none

/-- Decimal digit character for `d < 10`. -/
def digitChar (d : Nat) : Char := Char.ofNat (48 + d)

/-- Decimal printer, fuel-driven on the number itself. -/
def natCharsAux : Nat → Nat → List Char
  | 0, _ => []
  | fuel + 1, n =>
    if n < 10 then [digitChar n]
    else natCharsAux fuel (n / 10) ++ [digitChar (n % 10)]

/-- Python `'%d' % n` for a natural number. -/
def natChars (n : Nat) : List Char := natCharsAux (n + 1) n

/-- `file.readline()` on a character stream: the line up to (excluding) the
first newline, plus the rest of the stream after the newline.  At end of
stream the remaining characters (possibly none) are returned. -/
def readline : List Char → List Char × List Char
  | [] => ([], [])
  | c :: cs =>
    if c = '\n' then ([], cs)
    else
      let r := readline cs
      (c :: r.1, r.2)

/-! ## Filesystem model -/

/-- The local filesystem: an association list from paths to file contents.
Lookup takes the first matching entry. -/
def Fs : Type := List (List Char × List Char)

/-- Content of the file at a path, if one exists. -/
def getFile : Fs → List Char → Option (List Char)
  | [], _ => none
  | (q, c) :: fs, p => if q = p then some c else getFile fs p

/-- `os.path.isfile`. -/
def isfile (fs : Fs) (p : List Char) : Bool := (getFile fs p).isSome

/-- `open(p, 'w')` followed by writing `c`: create or truncate-and-write. -/
def setFile (fs : Fs) (p c : List Char) : Fs := (p, c) :: fs

/-- `os.remove`. -/
def rmFile : Fs → List Char → Fs
  | [], _ => []
  | (q, c) :: fs, p => if q = p then rmFile fs p else (q, c) :: rmFile fs p

/-- `shutil.copy2(src, dst)` at the content level (metadata out of scope);
the source only calls it when `src` is a file. -/
def copy2 (fs : Fs) (src dst : List Char) : Fs :=
  match getFile fs src with
  | some c => setFile fs dst c
  | none => fs

/-! ## Wire-protocol constants (ratom.py lines 18-28) -/

def OPEN_CMD : List Char := "open".data
def SAVE_CMD : List Char := "save".data
def CLOSE_CMD : List Char := "close".data
def DATA_SIZE_KEY : List Char := "data".data
def PATH_KEY : List Char := "token".data

/-! ## Backup-path probing (ratom.py lines 195-197) -/

/-- One probing step per unit of fuel: while a file exists at the candidate,
append another `~`. -/
def probeAux : Nat → Fs → List Char → List Char
  | 0, _, p => p
  | fuel + 1, fs, p => if isfile fs p then probeAux fuel fs (p ++ ['~']) else p

/-- `tmp_path = '%s~' % path` followed by the
`while os.path.isfile(tmp_path): tmp_path = '%s~' % tmp_path` loop.
Fuel `fs.length + 1` always suffices to reach an unused name, since every
candidate is distinct and the filesystem holds finitely many files. -/
def probe (fs : Fs) (path : List Char) : List Char :=
  probeAux (fs.length + 1) fs (path ++ ['~'])

/-! ## The atomic write (ratom.py lines 194-207) -/

/-- Outcome of the destructive `with open(path, 'w') ... file.write(...)`
step: either it completes, or it raises after leaving `junk` (the partial
content written so far, possibly empty) in the target file.  The `.fail`
case injects the write failure the spec's round-trip property is about. -/
inductive WriteOutcome where
  | ok : WriteOutcome
  | fail (junk : List Char) : WriteOutcome

/-- The `finally` clause (ratom.py lines 204-207): if a backup file exists,
copy it back over the target and delete it. -/
def finallyRestore (fs : Fs) (tmp path : List Char) : Fs :=
  if isfile fs tmp then rmFile (copy2 fs tmp path) tmp else fs

/-- The backup-protected write (ratom.py lines 194-207): probe for a backup
name, back up the target if it exists, truncate-and-write the payload
(or raise, per `out`), remove the backup on success, and run the `finally`
restore clause.  Returns the resulting filesystem and whether the write
succeeded (`false` means the exception escapes to become `HandleError`). -/
def tryWrite (fs : Fs) (path payload : List Char) (out : WriteOutcome) :
    Fs × Bool :=
  let tmp := probe fs path
  let fs1 := if isfile fs path then copy2 fs path tmp else fs
  match out with
  | .ok =>
    let fs2 := setFile fs1 path payload
    let fs3 := if isfile fs2 tmp then rmFile fs2 tmp else fs2
    (finallyRestore fs3 tmp path, true)
  | .fail junk =>
    let fs2 := setFile fs1 path junk
    (finallyRestore fs2 tmp path, false)

/-! ## The save-frame handler (ratom.py lines 184-207) -/

/-- Processing of one `save` frame after its command line has been consumed
(ratom.py lines 184-207): read and parse the token line, then the size
line, validate both, then run the backup-protected write.  The payload is
`atom.read(int(data_size))`: exactly `int(data_size)` characters taken
from the stream, regardless of content.  `int()` of a non-numeral raises
after `open(path, 'w')` has already truncated the target, which the
`finally` clause then handles; this is the `.fail []` write outcome.
Errors (`ValueError` / `IOError`, re-raised as `HandleError` at line 209)
are returned as `.error` carrying the filesystem at the moment of the
raise; success returns the filesystem and the unconsumed stream. -/
def processSave (stream : List Char) (fs : Fs) (out : WriteOutcome) :
    Except Fs (Fs × List Char) :=
  let r1 := readline stream
  match unpack2 (parse_line r1.1) with
  | none => .error fs
  | some (path_key, path) =>
    let r2 := readline r1.2
    match unpack2 (parse_line r2.1) with
    | none => .error fs
    | some (data_size_key, data_size) =>
      if path_key ≠ PATH_KEY ∨ path = [] ∨
          data_size_key ≠ DATA_SIZE_KEY ∨ data_size = [] then
        .error fs
      else
        match digitsVal data_size with
        | none => .error (tryWrite fs path [] (.fail [])).1
        | some n =>
          match out with
          | .ok => .ok ((tryWrite fs path (r2.2.take n) .ok).1, r2.2.drop n)
          | .fail junk =>
            .error (tryWrite fs path (r2.2.take n) (.fail junk)).1

/-- `handle_atom`'s command loop (ratom.py lines 174-209): read a line; on
a blank line read one more and return if that is blank too; return on any
non-`save` command; otherwise process the save frame and loop.  `outs`
supplies the write outcome for each successive dispatched save (`.ok` once
exhausted).  `.error` is a `HandleError` escape carrying the filesystem at
the raise; `.ok` is normal loop termination.  Fuel bounds the number of
iterations; any fuel larger than the number of frames is enough. -/
def handleAtom : Nat → List Char → Fs → List WriteOutcome → Except Fs Fs
  | 0, _, fs, _ => .ok fs
  | fuel + 1, stream, fs, outs =>
    let r1 := readline stream
    let l1 := pyStrip r1.1
    let next :=
      if l1 = [] then
        let r2 := readline r1.2
        (pyStrip r2.1, r2.2)
      else (l1, r1.2)
    if next.1 = [] then .ok fs
    else if next.1 ≠ SAVE_CMD then .ok fs
    else
      match processSave next.2 fs (outs.headD .ok) with
      | .error fs1 => .error fs1
      | .ok (fs1, rest) => handleAtom fuel rest fs1 outs.tail

/-! ## The open-frame encoder (ratom.py lines 127-163)

`open_atom` builds the command dictionary (insertion order: display-name,
real-path, data-on-save, re-activate, token; the content and size entries
added afterwards are filtered out of the header loop), writes the command
line, one header line per metadata entry, and then
`'%s: %d\n%s\n.\n' % (DATA_SIZE_KEY, cmd.get(DATA_SIZE_KEY, 0),
cmd.get(DATA_CONTENT_KEY, ''))` — the `data:` header, the content and the
terminator.  The hostname, the absolute path and the file content (present
exactly when `os.path.isfile(path)`) are parameters of the model. -/

def open_atom (hostname realpath path : List Char)
    (content : Option (List Char)) : List Char :=
  OPEN_CMD ++ '\n' ::
  ("display-name: ".data ++ hostname ++ ':' :: path ++ '\n' ::
  ("real-path: ".data ++ realpath ++ '\n' ::
  ("data-on-save: yes\n".data ++
  ("re-activate: yes\n".data ++
  ("token: ".data ++ path ++ '\n' ::
  ("data: ".data ++ natChars (match content with
                              | some c => c.length
                              | none => 0) ++ '\n' ::
  ((match content with | some c => c | none => []) ++ "\n.\n".data)))))))

/-! ## Connection setup and resource lifecycle
(ratom.py lines 95-124 and 251-269) -/

/-- The error taxonomy of the module (ratom.py lines 31-44). -/
inductive RErr where
  | connectError
  | openError
  | handleError
  deriving DecidableEq

/-- What the network does during `connect_atom`: `socket.socket()` raises;
`sock.connect` raises; the banner `readline` raises (timeout, I/O error,
remote reset); or a banner line is delivered (possibly empty — an empty
line is also what `readline` returns at end of stream). -/
inductive ConnectInput where
  | socketFail
  | connectFail
  | bannerFail
  | banner (raw : List Char)
  deriving DecidableEq

/-- `connect_atom` (ratom.py lines 95-124): any `IOError`/`socket.error`
inside the `try` becomes `ConnectError`; a banner that strips to the empty
string raises `ConnectError` directly.  On success the stripped banner is
returned (with the handle).  No bytes are ever written to the channel. -/
def connect_atom : ConnectInput → Except RErr (List Char)
  | .socketFail => .error .connectError
  | .connectFail => .error .connectError
  | .bannerFail => .error .connectError
  | .banner raw =>
    if pyStrip raw = [] then .error .connectError else .ok (pyStrip raw)

/-- How many sockets `connect_atom` acquires before returning or raising:
none when `socket.socket()` itself raises, one in every other case (the
socket object exists from that point on, whether or not `connect`,
`makefile` or the banner read then fails). -/
def connectAcq : ConnectInput → Nat
  | .socketFail => 0
  | _ => 1

/-- Observable log of one `main` invocation (ratom.py lines 239-275):
its result, how many sockets were acquired, how many were closed, and the
bytes sent to the remote side. -/
structure RunLog where
  result : Except RErr Fs
  acq : Nat
  rel : Nat
  sent : List Char

/-- The `main` flow around the core (ratom.py lines 251-269): `sock, atom`
start as `None`; `connect_atom`, then `open_atom`, then `handle_atom`
inside a `try` whose `finally` closes `sock` and `atom` — but only when
they are not `None`.  When `connect_atom` raises, the tuple assignment
never happened, so the `finally` clause closes nothing, whatever
`connect_atom` had acquired internally. -/
def mainFlow (inp : ConnectInput) (hostname realpath path : List Char)
    (content : Option (List Char)) (stream : List Char) (fs : Fs) : RunLog :=
  match connect_atom inp with
  | .error e => { result := .error e, acq := connectAcq inp, rel := 0, sent := [] }
  | .ok _ =>
    let frame := open_atom hostname realpath path content
    match handleAtom (stream.length + 1) stream fs [] with
    | .error _ =>
      { result := .error .handleError, acq := 1, rel := 1, sent := frame }
    | .ok fs1 =>
      { result := .ok fs1, acq := 1, rel := 1, sent := frame }

/-! ## Wellformedness of header values

A key or value is `goodVal` when it is nonempty and free of colons and
whitespace — the shape of the path tokens and decimal sizes this protocol
carries on header lines.  (A colon inside a value is exactly the C10
scenario, treated separately.) -/

def goodVal (v : List Char) : Bool :=
  !v.isEmpty && v.all fun c => !(c = ':' || isWs c)

theorem goodVal_ne_nil {v : List Char} (h : goodVal v = true) : v ≠ [] := by
  intro hv
  simp [goodVal, hv] at h

theorem goodVal_no_colon {v : List Char} (h : goodVal v = true) :
    ∀ c ∈ v, c ≠ ':' := by
  intro c hc
  simp only [goodVal, Bool.and_eq_true, List.all_eq_true] at h
  have := h.2 c hc
  simp only [Bool.not_eq_true', Bool.or_eq_false_iff, decide_eq_false_iff_not]
    at this
  exact this.1

theorem goodVal_no_ws {v : List Char} (h : goodVal v = true) :
    ∀ c ∈ v, isWs c = false := by
  intro c hc
  simp only [goodVal, Bool.and_eq_true, List.all_eq_true] at h
  have := h.2 c hc
  simp only [Bool.not_eq_true', Bool.or_eq_false_iff, decide_eq_false_iff_not]
    at this
  exact this.2

theorem isWs_nl : isWs '\n' = true := by decide

theorem goodVal_no_nl {v : List Char} (h : goodVal v = true) :
    ∀ c ∈ v, c ≠ '\n' := by
  intro c hc hcn
  have := goodVal_no_ws h c hc
  rw [hcn, isWs_nl] at this
  exact Bool.noConfusion this

/-! ## Lemmas on the line reader -/

theorem readline_append {l : List Char} (r : List Char)
    (h : ∀ c ∈ l, c ≠ '\n') : readline (l ++ '\n' :: r) = (l, r) := by
  induction l with
  | nil => simp [readline]
  | cons c t ih =>
    have hc : c ≠ '\n' := h c (List.mem_cons_self c t)
    have ht : ∀ x ∈ t, x ≠ '\n' := fun x hx => h x (List.mem_cons_of_mem c hx)
    simp [readline, hc, ih ht]

/-! ## Lemmas on stripping -/

theorem dropWhile_of_head {p : Char → Bool} {c : Char} {t : List Char}
    (h : p c = false) : List.dropWhile p (c :: t) = c :: t := by
  simp [List.dropWhile_cons, h]

theorem dropWhile_of_all {p : Char → Bool} {cs : List Char}
    (h : ∀ c ∈ cs, p c = false) : List.dropWhile p cs = cs := by
  cases cs with
  | nil => rfl
  | cons c t => exact dropWhile_of_head (h c (List.mem_cons_self c t))

theorem pyStrip_goodVal {v : List Char} (h : goodVal v = true) :
    pyStrip v = v := by
  unfold pyStrip
  rw [dropWhile_of_all (goodVal_no_ws h)]
  rw [dropWhile_of_all (fun c hc => goodVal_no_ws h c (List.mem_reverse.mp hc))]
  exact List.reverse_reverse v

theorem pyStrip_space_cons {v : List Char} (h : goodVal v = true) :
    pyStrip (' ' :: v) = v := by
  have hsp : List.dropWhile isWs (' ' :: v) = List.dropWhile isWs v := by
    rw [List.dropWhile_cons, show isWs ' ' = true from by decide]
    simp
  unfold pyStrip
  rw [hsp, dropWhile_of_all (goodVal_no_ws h)]
  rw [dropWhile_of_all (fun c hc => goodVal_no_ws h c (List.mem_reverse.mp hc))]
  exact List.reverse_reverse v

theorem pyStrip_keyval {k v : List Char} (hk : goodVal k = true)
    (hv : goodVal v = true) :
    pyStrip (k ++ ':' :: ' ' :: v) = k ++ ':' :: ' ' :: v := by
  obtain ⟨a, k', rfl⟩ : ∃ a k', k = a :: k' := by
    cases k with
    | nil => exact absurd rfl (goodVal_ne_nil hk)
    | cons a k' => exact ⟨a, k', rfl⟩
  obtain ⟨b, w, hw⟩ : ∃ b w, v.reverse = b :: w := by
    cases hvr : v.reverse with
    | nil =>
      exact absurd (List.reverse_eq_nil_iff.mp hvr) (goodVal_ne_nil hv)
    | cons b w => exact ⟨b, w, rfl⟩
  have ha : isWs a = false := goodVal_no_ws hk a (List.mem_cons_self a k')
  have hb : isWs b = false := by
    refine goodVal_no_ws hv b ?_
    rw [← List.mem_reverse, hw]
    exact List.mem_cons_self b w
  have h1 : List.dropWhile isWs ((a :: k') ++ ':' :: ' ' :: v)
      = (a :: k') ++ ':' :: ' ' :: v := by
    rw [List.cons_append]
    exact dropWhile_of_head ha
  have hrev : ((a :: k') ++ ':' :: ' ' :: v).reverse
      = b :: (w ++ ' ' :: ':' :: (k'.reverse ++ [a])) := by
    simp [hw]
  have h2 : List.dropWhile isWs (((a :: k') ++ ':' :: ' ' :: v).reverse)
      = ((a :: k') ++ ':' :: ' ' :: v).reverse := by
    rw [hrev]
    exact dropWhile_of_head hb
  unfold pyStrip
  rw [h1, h2, List.reverse_reverse]

/-! ## Lemmas on colon splitting -/

theorem splitColon_ne_nil (n : Nat) (cs : List Char) : splitColon n cs ≠ [] := by
  induction cs generalizing n with
  | nil => simp [splitColon]
  | cons c t ih =>
    by_cases hc : c = ':'
    · cases n with
      | zero =>
        simp only [splitColon, if_pos hc]
        cases h : splitColon 0 t with
        | nil => simp
        | cons p ps => simp
      | succ m => simp [splitColon, if_pos hc]
    · simp only [splitColon, if_neg hc]
      cases h : splitColon n t with
      | nil => simp
      | cons p ps => simp

theorem splitColon_no_colon {cs : List Char} (n : Nat)
    (h : ∀ c ∈ cs, c ≠ ':') : splitColon n cs = [cs] := by
  induction cs generalizing n with
  | nil => rfl
  | cons c t ih =>
    have hc : c ≠ ':' := h c (List.mem_cons_self c t)
    have ht : ∀ x ∈ t, x ≠ ':' := fun x hx => h x (List.mem_cons_of_mem c hx)
    simp only [splitColon, if_neg hc, ih n ht]

theorem splitColon_front {k : List Char} (n : Nat) (cs p : List Char)
    (ps : List (List Char)) (hk : ∀ c ∈ k, c ≠ ':')
    (h : splitColon n cs = p :: ps) :
    splitColon n (k ++ cs) = (k ++ p) :: ps := by
  induction k with
  | nil => simpa using h
  | cons c t ih =>
    have hc : c ≠ ':' := hk c (List.mem_cons_self c t)
    have ht : ∀ x ∈ t, x ≠ ':' := fun x hx => hk x (List.mem_cons_of_mem c hx)
    rw [List.cons_append]
    simp only [splitColon, if_neg hc, ih ht]
    simp

theorem splitColon_length (cs : List Char) (n : Nat) :
    (splitColon n cs).length = min (cs.count ':') n + 1 := by
  induction cs generalizing n with
  | nil => simp [splitColon]
  | cons c t ih =>
    by_cases hc : c = ':'
    · subst hc
      cases n with
      | zero =>
        have hred : splitColon 0 (':' :: t)
            = match splitColon 0 t with
              | [] => [[':']]
              | p :: ps => (':' :: p) :: ps := by
          simp [splitColon]
        cases h : splitColon 0 t with
        | nil => exact absurd h (splitColon_ne_nil 0 t)
        | cons p ps =>
          rw [hred, h]
          have hih := ih 0
          rw [h] at hih
          simp only [List.length_cons] at hih ⊢
          omega
      | succ m =>
        have hred : splitColon (m + 1) (':' :: t) = [] :: splitColon m t := by
          simp [splitColon]
        rw [hred]
        simp only [List.length_cons]
        rw [ih m, List.count_cons_self]
        omega
    · have hred : splitColon n (c :: t)
          = match splitColon n t with
            | [] => [[c]]
            | p :: ps => (c :: p) :: ps := by
        simp [splitColon, hc]
      cases h : splitColon n t with
      | nil => exact absurd h (splitColon_ne_nil n t)
      | cons p ps =>
        rw [hred, h]
        have hih := ih n
        rw [h] at hih
        simp only [List.length_cons] at hih ⊢
        rw [List.count_cons_of_ne (Ne.symm hc)]
        exact hih

/-! ## Lemmas on `__parse_line` -/

/-- A well-formed `key: value` header line parses into exactly the key and
the value. -/
theorem parse_line_keyval {k v : List Char} (hk : goodVal k = true)
    (hv : goodVal v = true) :
    parse_line (k ++ ':' :: ' ' :: v) = [k, v] := by
  unfold parse_line
  rw [pyStrip_keyval hk hv]
  have hmid : splitColon 2 (':' :: ' ' :: v) = [[], ' ' :: v] := by
    show splitColon 2 (':' :: (' ' :: v)) = _
    rw [show splitColon 2 (':' :: (' ' :: v))
          = [] :: splitColon 1 (' ' :: v) from by simp [splitColon]]
    rw [show splitColon 1 (' ' :: v) = [' ' :: v] from
          splitColon_no_colon 1 (by
            intro c hc
            rcases List.mem_cons.mp hc with h | h
            · rw [h]; decide
            · exact goodVal_no_colon hv c h)]
  rw [splitColon_front 2 (':' :: ' ' :: v) [] [' ' :: v]
        (goodVal_no_colon hk) hmid]
  simp only [List.append_nil, List.map_cons, List.map_nil]
  rw [pyStrip_goodVal hk, pyStrip_space_cons hv]

/-- A header line whose value contains a colon splits into three parts,
not two (`__parse_line` uses `split(':', 2)` and the key line already
contains one colon). -/
theorem parse_line_colon_value {k v : List Char} (hcol : ':' ∈ v) :
    (parse_line (k ++ ':' :: ' ' :: v)).length = 3 := by
  unfold parse_line
  rw [List.length_map]
  have hcount : (pyStrip (k ++ ':' :: ' ' :: v)).count ':'
      = (k ++ ':' :: ' ' :: v).count ':' := by
    unfold pyStrip
    rw [List.count_reverse]
    have h1 : ∀ cs : List Char,
        (List.dropWhile isWs cs).count ':' = cs.count ':' := by
      intro cs
      induction cs with
      | nil => rfl
      | cons c t ih =>
        rw [List.dropWhile_cons]
        by_cases hc : isWs c = true
        · have hcne : c ≠ ':' := by
            intro h
            rw [h] at hc
            exact absurd hc (by decide)
          rw [if_pos hc, ih, List.count_cons_of_ne (Ne.symm hcne)]
        · rw [if_neg hc]
    rw [h1, List.count_reverse, h1]
  rw [splitColon_length, hcount]
  have h2 : (k ++ ':' :: ' ' :: v).count ':' ≥ 2 := by
    rw [List.count_append]
    have : (':' :: ' ' :: v).count ':' ≥ 2 := by
      rw [List.count_cons_self, List.count_cons_of_ne (by decide)]
      have := List.count_pos_iff.mpr hcol
      omega
    omega
  omega

/-! ## Lemmas on the filesystem model -/

theorem getFile_set_self (fs : Fs) (p c : List Char) :
    getFile (setFile fs p c) p = some c := by
  simp [setFile, getFile]

theorem getFile_set_ne (fs : Fs) {p q : List Char} (c : List Char)
    (h : q ≠ p) : getFile (setFile fs p c) q = getFile fs q := by
  simp only [setFile, getFile]
  rw [if_neg (fun hpq : p = q => h hpq.symm)]

theorem getFile_rm_self (fs : Fs) (p : List Char) :
    getFile (rmFile fs p) p = none := by
  induction fs with
  | nil => rfl
  | cons e fs ih =>
    obtain ⟨q, c⟩ := e
    by_cases h : q = p
    · simp only [rmFile, if_pos h]
      exact ih
    · simp only [rmFile, if_neg h, getFile]
      exact ih

theorem getFile_rm_ne (fs : Fs) {p q : List Char} (h : q ≠ p) :
    getFile (rmFile fs p) q = getFile fs q := by
  induction fs with
  | nil => rfl
  | cons e fs ih =>
    obtain ⟨a, c⟩ := e
    by_cases ha : a = p
    · simp only [rmFile, if_pos ha, getFile]
      rw [if_neg (fun haq : a = q => h (haq ▸ ha))]
      exact ih
    · simp only [rmFile, if_neg ha, getFile]
      by_cases haq : a = q
      · rw [if_pos haq, if_pos haq]
      · rw [if_neg haq, if_neg haq]
        exact ih

theorem isfile_false_getFile {fs : Fs} {p : List Char}
    (h : isfile fs p = false) : getFile fs p = none := by
  unfold isfile at h
  cases hg : getFile fs p with
  | none => rfl
  | some c => rw [hg] at h; simp at h

theorem isfile_true_getFile {fs : Fs} {p : List Char}
    (h : isfile fs p = true) : ∃ c, getFile fs p = some c := by
  unfold isfile at h
  cases hg : getFile fs p with
  | none => rw [hg] at h; simp at h
  | some c => exact ⟨c, rfl⟩

theorem isfile_mem_keys {fs : Fs} {p : List Char}
    (h : isfile fs p = true) : p ∈ fs.map Prod.fst := by
  induction fs with
  | nil => simp [isfile, getFile] at h
  | cons e fs ih =>
    obtain ⟨q, c⟩ := e
    by_cases hq : q = p
    · subst hq
      simp
    · simp only [isfile, getFile, if_neg hq] at h
      simp only [List.map_cons, List.mem_cons]
      exact Or.inr (ih h)

/-! ## Lemmas on backup-path probing -/

theorem probeAux_spec (fuel : Nat) (fs : Fs) :
    ∀ q : List Char, ∃ j, j ≤ fuel ∧
      probeAux fuel fs q = q ++ List.replicate j '~' ∧
      (∀ i < j, isfile fs (q ++ List.replicate i '~') = true) ∧
      (j < fuel → isfile fs (q ++ List.replicate j '~') = false) := by
  induction fuel with
  | zero =>
    intro q
    exact ⟨0, Nat.le_refl 0, by simp [probeAux], fun i hi => absurd hi (by omega),
      fun h => absurd h (by omega)⟩
  | succ fuel ih =>
    intro q
    by_cases hq : isfile fs q = true
    · obtain ⟨j, hj, hres, hall, hlast⟩ := ih (q ++ ['~'])
      refine ⟨j + 1, by omega, ?_, ?_, ?_⟩
      · rw [probeAux, if_pos hq, hres, List.append_assoc]
        rw [show ['~'] ++ List.replicate j '~' = List.replicate (j + 1) '~' from
              by simp [List.replicate_succ]]
      · intro i hi
        cases i with
        | zero => simpa using hq
        | succ i =>
          have := hall i (by omega)
          rw [List.append_assoc] at this
          rw [show ['~'] ++ List.replicate i '~' = List.replicate (i + 1) '~' from
                by simp [List.replicate_succ]] at this
          exact this
      · intro hlt
        have := hlast (by omega)
        rw [List.append_assoc] at this
        rw [show ['~'] ++ List.replicate j '~' = List.replicate (j + 1) '~' from
              by simp [List.replicate_succ]] at this
        exact this
    · have hq2 : isfile fs q = false := by
        revert hq
        cases isfile fs q <;> simp
      refine ⟨0, by omega, ?_, fun i hi => absurd hi (by omega), fun _ => ?_⟩
      · simp [probeAux, hq2]
      · simpa using hq2

/-- Pigeonhole: a filesystem with `fs.length` entries cannot contain files
at `fs.length + 1` pairwise-distinct paths. -/
theorem no_all_isfile (fs : Fs) (q : List Char)
    (h : ∀ i < fs.length + 1,
      isfile fs (q ++ List.replicate i '~') = true) : False := by
  classical
  set L := (List.range (fs.length + 1)).map
    (fun i => q ++ List.replicate i '~') with hL
  have hinj : Function.Injective (fun i => q ++ List.replicate i '~') := by
    intro i j hij
    have := congrArg List.length hij
    simpa using this
  have hnodup : L.Nodup := List.Nodup.map hinj (List.nodup_range _)
  have hsub : ∀ x ∈ L, x ∈ fs.map Prod.fst := by
    intro x hx
    rw [hL] at hx
    obtain ⟨i, hi, rfl⟩ := List.mem_map.mp hx
    exact isfile_mem_keys (h i (List.mem_range.mp hi))
  have hcard1 : L.toFinset.card = fs.length + 1 := by
    rw [List.toFinset_card_of_nodup hnodup, hL]
    simp
  have hcard2 : L.toFinset.card ≤ (fs.map Prod.fst).length := by
    calc L.toFinset.card ≤ (fs.map Prod.fst).toFinset.card := by
          apply Finset.card_le_card
          intro x hx
          rw [List.mem_toFinset] at hx ⊢
          exact hsub x hx
      _ ≤ (fs.map Prod.fst).length := List.toFinset_card_le _
  rw [hcard1] at hcard2
  simp only [List.length_map] at hcard2
  omega

/-- The probe chooses a path of the form `path ++ "~" * (k + 1)` that is
not an existing file, and every shorter candidate (with at least one `~`)
is an existing file. -/
theorem probe_spec (fs : Fs) (path : List Char) :
    ∃ k, probe fs path = path ++ List.replicate (k + 1) '~' ∧
      isfile fs (probe fs path) = false ∧
      ∀ i < k, isfile fs (path ++ List.replicate (i + 1) '~') = true := by
  obtain ⟨j, hj, hres, hall, hlast⟩ :=
    probeAux_spec (fs.length + 1) fs (path ++ ['~'])
  have hshift : ∀ i : Nat, (path ++ ['~']) ++ List.replicate i '~'
      = path ++ List.replicate (i + 1) '~' := by
    intro i
    rw [List.append_assoc]
    simp [List.replicate_succ]
  have hjlt : j < fs.length + 1 := by
    rcases Nat.lt_or_ge j (fs.length + 1) with h | h
    · exact h
    · exact absurd (fun i hi => hall i (by omega)) (no_all_isfile fs (path ++ ['~']))
  refine ⟨j, ?_, ?_, ?_⟩
  · rw [probe, hres, hshift]
  · rw [probe, hres]
    exact hlast hjlt
  · intro i hi
    have hh := hall i (by omega)
    rw [hshift i] at hh
    exact hh

theorem probe_not_isfile (fs : Fs) (path : List Char) :
    isfile fs (probe fs path) = false := by
  obtain ⟨k, _, h, _⟩ := probe_spec fs path
  exact h

theorem probe_ne (fs : Fs) (path : List Char) : probe fs path ≠ path := by
  obtain ⟨k, hk, _, _⟩ := probe_spec fs path
  intro h
  rw [h] at hk
  have := congrArg List.length hk
  simp at this

/-! ## Lemmas on the atomic write -/

theorem path_ne_probe (fs : Fs) (path : List Char) : path ≠ probe fs path :=
  fun h => probe_ne fs path h.symm

theorem tryWrite_ok_eq_of_isfile {fs : Fs} {path : List Char}
    (payload : List Char) {c : List Char} (hc : getFile fs path = some c) :
    (tryWrite fs path payload .ok).1
      = rmFile (setFile (setFile fs (probe fs path) c) path payload)
          (probe fs path) := by
  have hf : isfile fs path = true := by simp [isfile, hc]
  have h2 : isfile (setFile (setFile fs (probe fs path) c) path payload)
      (probe fs path) = true := by
    unfold isfile
    rw [getFile_set_ne _ _ (probe_ne fs path), getFile_set_self]
    rfl
  have h3 : isfile (rmFile (setFile (setFile fs (probe fs path) c)
        path payload) (probe fs path)) (probe fs path) = false := by
    unfold isfile
    rw [getFile_rm_self]
    rfl
  simp only [tryWrite, hf, if_true, copy2, hc, h2, finallyRestore, h3]
  simp

theorem tryWrite_ok_eq_of_not_isfile {fs : Fs} {path : List Char}
    (payload : List Char) (hf : isfile fs path = false) :
    (tryWrite fs path payload .ok).1 = setFile fs path payload := by
  have h2 : isfile (setFile fs path payload) (probe fs path) = false := by
    unfold isfile
    rw [getFile_set_ne _ _ (probe_ne fs path),
      isfile_false_getFile (probe_not_isfile fs path)]
    rfl
  simp only [tryWrite, hf, Bool.false_eq_true, if_false, h2, finallyRestore]

theorem tryWrite_fail_eq_of_isfile {fs : Fs} {path : List Char}
    (payload junk : List Char) {c : List Char}
    (hc : getFile fs path = some c) :
    (tryWrite fs path payload (.fail junk)).1
      = rmFile (setFile (setFile (setFile fs (probe fs path) c) path junk)
          path c) (probe fs path) := by
  have hf : isfile fs path = true := by simp [isfile, hc]
  have h2 : isfile (setFile (setFile fs (probe fs path) c) path junk)
      (probe fs path) = true := by
    unfold isfile
    rw [getFile_set_ne _ _ (probe_ne fs path), getFile_set_self]
    rfl
  have h4 : getFile (setFile (setFile fs (probe fs path) c) path junk)
      (probe fs path) = some c := by
    rw [getFile_set_ne _ _ (probe_ne fs path), getFile_set_self]
  simp only [tryWrite, hf, if_true, copy2, hc, finallyRestore, h2, h4]

theorem tryWrite_fail_eq_of_not_isfile {fs : Fs} {path : List Char}
    (payload junk : List Char) (hf : isfile fs path = false) :
    (tryWrite fs path payload (.fail junk)).1 = setFile fs path junk := by
  have h2 : isfile (setFile fs path junk) (probe fs path) = false := by
    unfold isfile
    rw [getFile_set_ne _ _ (probe_ne fs path),
      isfile_false_getFile (probe_not_isfile fs path)]
    rfl
  simp only [tryWrite, hf, Bool.false_eq_true, if_false, finallyRestore, h2]

/-- A successful backup-protected write leaves exactly the payload at the
target, touches no other path, and reports success. -/
theorem tryWrite_ok_spec (fs : Fs) (path payload : List Char) :
    getFile (tryWrite fs path payload .ok).1 path = some payload ∧
    (∀ q, q ≠ path → getFile (tryWrite fs path payload .ok).1 q
      = getFile fs q) ∧
    (tryWrite fs path payload .ok).2 = true := by
  have hsnd : (tryWrite fs path payload .ok).2 = true := by
    unfold tryWrite
    cases isfile fs path <;> rfl
  cases hf : isfile fs path with
  | false =>
    rw [tryWrite_ok_eq_of_not_isfile payload hf]
    refine ⟨getFile_set_self fs path payload, fun q hq => ?_, hsnd⟩
    exact getFile_set_ne fs payload hq
  | true =>
    obtain ⟨c, hc⟩ := isfile_true_getFile hf
    rw [tryWrite_ok_eq_of_isfile payload hc]
    refine ⟨?_, fun q hq => ?_, hsnd⟩
    · rw [getFile_rm_ne _ (path_ne_probe fs path), getFile_set_self]
    · by_cases hqt : q = probe fs path
      · subst hqt
        rw [getFile_rm_self, isfile_false_getFile (probe_not_isfile fs path)]
      · rw [getFile_rm_ne _ hqt, getFile_set_ne _ _ hq,
          getFile_set_ne _ _ hqt]

/-- A failed destructive write on a target that existed before the save is
rolled back completely: every path, the target and the probed backup
included, holds exactly what it held before, and the overall write reports
failure (the exception escapes as `HandleError`). -/
theorem tryWrite_fail_spec (fs : Fs) (path payload junk : List Char)
    (hf : isfile fs path = true) :
    (∀ q, getFile (tryWrite fs path payload (.fail junk)).1 q
      = getFile fs q) ∧
    (tryWrite fs path payload (.fail junk)).2 = false := by
  have hsnd : (tryWrite fs path payload (.fail junk)).2 = false := by
    unfold tryWrite
    cases isfile fs path <;> rfl
  obtain ⟨c, hc⟩ := isfile_true_getFile hf
  rw [tryWrite_fail_eq_of_isfile payload junk hc]
  refine ⟨fun q => ?_, hsnd⟩
  by_cases hqt : q = probe fs path
  · subst hqt
    rw [getFile_rm_self, isfile_false_getFile (probe_not_isfile fs path)]
  · by_cases hqp : q = path
    · subst hqp
      rw [getFile_rm_ne _ hqt, getFile_set_self, hc]
    · rw [getFile_rm_ne _ hqt, getFile_set_ne _ _ hqp,
        getFile_set_ne _ _ hqp, getFile_set_ne _ _ hqt]

/-! ## Lemmas on the save-frame handler -/

theorem PATH_KEY_goodVal : goodVal PATH_KEY = true := by decide

theorem DATA_SIZE_KEY_goodVal : goodVal DATA_SIZE_KEY = true := by decide

theorem keyval_no_nl {k v : List Char} (hk : ∀ c ∈ k, c ≠ '\n')
    (hv : goodVal v = true) : ∀ c ∈ k ++ ':' :: ' ' :: v, c ≠ '\n' := by
  intro c hc
  rcases List.mem_append.mp hc with h | h
  · exact hk c h
  · rcases List.mem_cons.mp h with h | h
    · rw [h]; decide
    · rcases List.mem_cons.mp h with h | h
      · rw [h]; decide
      · exact goodVal_no_nl hv c h

/-- The two header reads and checks of `handle_atom` (lines 184-190) on a
well-formed token line followed by a well-formed size line: parsing
succeeds and the handler proceeds to the write with the value of the size
header deciding what is read, exactly as lines 194-207 do. -/
theorem processSave_parse (fs : Fs) (T szs rest : List Char)
    (out : WriteOutcome) (hT : goodVal T = true) (hszs : goodVal szs = true) :
    processSave ((PATH_KEY ++ ':' :: ' ' :: T)
        ++ '\n' :: ((DATA_SIZE_KEY ++ ':' :: ' ' :: szs) ++ '\n' :: rest))
      fs out
    = match digitsVal szs with
      | none => .error (tryWrite fs T [] (.fail [])).1
      | some n =>
        match out with
        | .ok => .ok ((tryWrite fs T (rest.take n) .ok).1, rest.drop n)
        | .fail junk => .error (tryWrite fs T (rest.take n) (.fail junk)).1
    := by
  have hnl1 : ∀ c ∈ PATH_KEY ++ ':' :: ' ' :: T, c ≠ '\n' :=
    keyval_no_nl (by decide) hT
  have hnl2 : ∀ c ∈ DATA_SIZE_KEY ++ ':' :: ' ' :: szs, c ≠ '\n' :=
    keyval_no_nl (by decide) hszs
  simp only [processSave]
  rw [readline_append _ hnl1]
  simp only
  rw [parse_line_keyval PATH_KEY_goodVal hT]
  simp only [unpack2]
  rw [readline_append _ hnl2]
  simp only
  rw [parse_line_keyval DATA_SIZE_KEY_goodVal hszs]
  simp only [unpack2]
  rw [if_neg (by
    intro h
    rcases h with h | h | h | h
    · exact h rfl
    · exact goodVal_ne_nil hT h
    · exact h rfl
    · exact goodVal_ne_nil hszs h)]

/-! ## Lemmas on the command loop -/

/-- The command loop on a stream whose first line is `save`: the save
frame is processed and, on success, the loop continues on what the frame
left unconsumed. -/
theorem handleAtom_save (fuel : Nat) (body : List Char) (fs : Fs)
    (outs : List WriteOutcome) :
    handleAtom (fuel + 1) (SAVE_CMD ++ '\n' :: body) fs outs
    = match processSave body fs (outs.headD .ok) with
      | .error fs1 => .error fs1
      | .ok (fs1, rest) => handleAtom fuel rest fs1 outs.tail := by
  have hnl : ∀ c ∈ SAVE_CMD, c ≠ '\n' := by decide
  simp only [handleAtom]
  rw [readline_append _ hnl]
  simp only
  rw [pyStrip_goodVal (show goodVal SAVE_CMD = true from by decide)]
  rw [if_neg (show ¬(SAVE_CMD = []) from by decide)]
  simp only
  rw [if_neg (show ¬(SAVE_CMD = []) from by decide),
    if_neg (show ¬(SAVE_CMD ≠ SAVE_CMD) from fun h => h rfl)]

/-- The command loop on a stream whose first line is non-blank and not
`save` (for instance `close`): the loop terminates normally at once,
leaving the filesystem untouched. -/
theorem handleAtom_other (fuel : Nat) {l : List Char} (rest : List Char)
    (fs : Fs) (outs : List WriteOutcome) (hnl : ∀ c ∈ l, c ≠ '\n')
    (hne : pyStrip l ≠ []) (hns : pyStrip l ≠ SAVE_CMD) :
    handleAtom (fuel + 1) (l ++ '\n' :: rest) fs outs = .ok fs := by
  simp only [handleAtom]
  rw [readline_append _ hnl]
  simp only
  rw [if_neg hne]
  simp only
  rw [if_neg hne, if_pos hns]

/-- The command loop on a blank line followed by a blank line (or end of
stream): normal termination. -/
theorem handleAtom_blank_blank (fuel : Nat) (rest : List Char) (fs : Fs)
    (outs : List WriteOutcome) :
    handleAtom (fuel + 1) ('\n' :: '\n' :: rest) fs outs = .ok fs := by
  simp only [handleAtom, readline]
  simp [pyStrip]

/-- The command loop at end of stream: `readline` keeps returning the
empty string, so the loop returns normally. -/
theorem handleAtom_eof (fuel : Nat) (fs : Fs) (outs : List WriteOutcome) :
    handleAtom (fuel + 1) [] fs outs = .ok fs := by
  simp [handleAtom, readline, pyStrip]

/-- A list of exactly three items fails Python 2-tuple unpacking. -/
theorem unpack2_len3 {α : Type} {l : List α} (h : l.length = 3) :
    unpack2 l = none := by
  match l, h with
  | [a, b, c], _ => rfl

/-! ## The claims -/

/-- C2: for every payload `P` and token `T` (well-formed for the wire
format: nonempty, colon- and whitespace-free, with a size header naming
exactly `P`'s length), dispatching a `save` frame through the command loop
succeeds, and afterwards the file at path `T` holds exactly the bytes `P`,
the probed backup path holds no file, and every other path is untouched. -/
theorem save_persists_exact_payload (fuel : Nat) (fs : Fs)
    (T szs P : List Char) (hT : goodVal T = true) (hszs : goodVal szs = true)
    (hn : digitsVal szs = some P.length) :
    handleAtom (fuel + 1 + 1)
      (SAVE_CMD ++ '\n' :: ((PATH_KEY ++ ':' :: ' ' :: T)
        ++ '\n' :: ((DATA_SIZE_KEY ++ ':' :: ' ' :: szs)
        ++ '\n' :: (P ++ ['\n', '\n'])))) fs []
      = .ok (tryWrite fs T P .ok).1 ∧
    getFile (tryWrite fs T P .ok).1 T = some P ∧
    isfile (tryWrite fs T P .ok).1 (probe fs T) = false ∧
    ∀ q, q ≠ T → getFile (tryWrite fs T P .ok).1 q = getFile fs q := by
  obtain ⟨hself, hframe, _⟩ := tryWrite_ok_spec fs T P
  have hnobak : isfile (tryWrite fs T P .ok).1 (probe fs T) = false := by
    unfold isfile
    rw [hframe (probe fs T) (probe_ne fs T),
      isfile_false_getFile (probe_not_isfile fs T)]
    rfl
  refine ⟨?_, hself, hnobak, fun q hq => hframe q hq⟩
  rw [handleAtom_save (fuel + 1)]
  rw [show ([] : List WriteOutcome).headD .ok = .ok from rfl]
  rw [processSave_parse fs T szs (P ++ ['\n', '\n']) .ok hT hszs, hn]
  simp only
  rw [List.take_left, List.drop_left]
  rw [handleAtom_blank_blank fuel]

/-- C2 witness: a concrete dispatched save (`token: f`, `data: 2`,
payload `hi`) on an empty filesystem. -/
theorem save_persists_exact_payload_witness :
    handleAtom 2 ("save\ntoken: f\ndata: 2\nhi\n\n".data) ([] : Fs) []
      = .ok [("f".data, "hi".data)] ∧
    getFile [("f".data, "hi".data)] ("f".data) = some ("hi".data) := by
  have h := save_persists_exact_payload 0 [] ("f".data) ("2".data)
    ("hi".data) (by decide) (by decide) (by decide)
  exact ⟨h.1, h.2.1⟩

/-- C5: the payload of a `save` frame is read as a fixed-length span of
exactly `n` characters where `n` is the value of the size header — never
line by line.  Every payload of length `n`, embedded newlines included, is
written verbatim to the target file, and the stream immediately after
those `n` characters (here `rest`, e.g. the next header line) is left
exactly in place for the loop's next read. -/
theorem payload_read_by_count (fs : Fs) (T szs P rest : List Char)
    (hT : goodVal T = true) (hszs : goodVal szs = true)
    (hn : digitsVal szs = some P.length) :
    processSave ((PATH_KEY ++ ':' :: ' ' :: T)
        ++ '\n' :: ((DATA_SIZE_KEY ++ ':' :: ' ' :: szs)
        ++ '\n' :: (P ++ rest))) fs .ok
      = .ok ((tryWrite fs T P .ok).1, rest) ∧
    getFile (tryWrite fs T P .ok).1 T = some P := by
  refine ⟨?_, (tryWrite_ok_spec fs T P).1⟩
  rw [processSave_parse fs T szs (P ++ rest) .ok hT hszs, hn]
  simp only
  rw [List.take_left, List.drop_left]

/-- C5 witness: declared size 4 with payload `a\nb\n` (two embedded
newlines) followed immediately by the next command line `close`; exactly
four characters are consumed and written, and `close\n` survives as the
next thing on the stream. -/
theorem payload_read_by_count_witness :
    processSave ("token: f\ndata: 4\na\nb\nclose\n".data) ([] : Fs) .ok
      = .ok ([("f".data, "a\nb\n".data)], "close\n".data) ∧
    getFile [("f".data, "a\nb\n".data)] ("f".data) = some ("a\nb\n".data) := by
  have h := payload_read_by_count [] ("f".data) ("4".data) ("a\nb\n".data)
    ("close\n".data) (by decide) (by decide) (by decide)
  exact ⟨h.1, h.2⟩

/-- C1 counterexample: the claim asserts the target file is never left
empty or partially written even when it did not exist before the save.
On an empty filesystem, a save of payload `ab` to `f` whose destructive
write fails after one character (`a`) raises `HandleError` and leaves the
file `f` existing with content `a` — the pre-save state (no file at `f`)
is not restored, because no backup was ever created. -/
theorem failed_write_no_preexisting_file_leaves_junk :
    handleAtom 1 ("save\ntoken: f\ndata: 2\nab".data) ([] : Fs)
        [.fail ("a".data)]
      = .error [("f".data, "a".data)] ∧
    getFile ([] : Fs) ("f".data) = none ∧
    getFile [("f".data, "a".data)] ("f".data) = some ("a".data) := by
  refine ⟨?_, rfl, by decide⟩
  rfl

/-- C1 amended: when the target file existed before the save (so a backup
was created), a failing destructive write is rolled back completely: the
frame is re-raised as `HandleError` and every path — the target and the
probed backup included — holds exactly its pre-save content, so no backup
remains.  (When the target did not exist, no backup exists and the failed
write can leave a fresh partially-written file; see the counterexample.) -/
theorem failed_write_restores_when_backup_exists (fuel : Nat) (fs : Fs)
    (T szs rest junk : List Char) (n : Nat) (hT : goodVal T = true)
    (hszs : goodVal szs = true) (hn : digitsVal szs = some n)
    (hf : isfile fs T = true) :
    handleAtom (fuel + 1)
      (SAVE_CMD ++ '\n' :: ((PATH_KEY ++ ':' :: ' ' :: T)
        ++ '\n' :: ((DATA_SIZE_KEY ++ ':' :: ' ' :: szs)
        ++ '\n' :: rest))) fs [.fail junk]
      = .error (tryWrite fs T (rest.take n) (.fail junk)).1 ∧
    ∀ q, getFile (tryWrite fs T (rest.take n) (.fail junk)).1 q
      = getFile fs q := by
  refine ⟨?_, (tryWrite_fail_spec fs T (rest.take n) junk hf).1⟩
  rw [handleAtom_save fuel]
  rw [show ([WriteOutcome.fail junk]).headD .ok = .fail junk from rfl]
  rw [processSave_parse fs T szs rest (.fail junk) hT hszs, hn]

/-- C1 amended witness: target `f` holds `old`; a write of `ab` fails
after `a`; afterwards `f` again holds `old` and the probed backup `f~`
does not exist. -/
theorem failed_write_restores_when_backup_exists_witness :
    handleAtom 1 ("save\ntoken: f\ndata: 2\nab".data)
        ([("f".data, "old".data)]) [.fail ("a".data)]
      = .error (tryWrite [("f".data, "old".data)] ("f".data) ("ab".data)
          (.fail ("a".data))).1 ∧
    getFile (tryWrite [("f".data, "old".data)] ("f".data) ("ab".data)
        (.fail ("a".data))).1 ("f".data) = some ("old".data) ∧
    getFile (tryWrite [("f".data, "old".data)] ("f".data) ("ab".data)
        (.fail ("a".data))).1 ("f~".data) = none := by
  have h := failed_write_restores_when_backup_exists 0
    [("f".data, "old".data)] ("f".data) ("2".data) ("ab".data) ("a".data) 2
    (by decide) (by decide) (by decide) (by decide)
  rw [show List.take 2 ("ab".data) = "ab".data from rfl] at h
  refine ⟨h.1, ?_, ?_⟩
  · rw [h.2 ("f".data)]
    rfl
  · rw [h.2 ("f~".data)]
    rfl

/-- C4 counterexample: the claim's state machine records header lines in
any order into a mapping and dispatches on the blank line, so the frame
`save / data: 1 / X / token: f / blank` (size header first, then one
payload byte, then the token header) would have both a token and a payload
present and would perform the write.  The code instead reads exactly two
lines in fixed order and rejects this frame with `HandleError`, the
filesystem left empty — no write is performed. -/
theorem save_frame_data_header_first_rejected :
    handleAtom 1 ("save\ndata: 1\nXtoken: f\n\n".data) ([] : Fs) []
      = .error ([] : Fs) := by
  rfl

/-- C4 amended: after a `save` command line the loop reads exactly two
header lines in fixed order — the token line first, the size line second.
When they are well-formed in that order, the write is dispatched with
exactly `n` payload characters read from the stream at write time, where
`n` is the size header's value.  When the first line's key is anything
other than the path-token key (for example the size header coming first),
or the second line's key is anything other than the size key, the frame
fails with `HandleError` and the filesystem is untouched; dispatch is not
driven by a blank line. -/
theorem save_frame_fixed_header_order (fs : Fs)
    (T szs rest : List Char) (n : Nat) (hT : goodVal T = true)
    (hszs : goodVal szs = true) (hn : digitsVal szs = some n) :
    (processSave ((PATH_KEY ++ ':' :: ' ' :: T)
        ++ '\n' :: ((DATA_SIZE_KEY ++ ':' :: ' ' :: szs)
        ++ '\n' :: rest)) fs .ok
      = .ok ((tryWrite fs T (rest.take n) .ok).1, rest.drop n)) ∧
    (∀ k v rest2, goodVal k = true → goodVal v = true → k ≠ PATH_KEY →
      processSave ((k ++ ':' :: ' ' :: v) ++ '\n' :: rest2) fs .ok
        = .error fs) ∧
    (∀ k v rest2, goodVal k = true → goodVal v = true →
      k ≠ DATA_SIZE_KEY →
      processSave ((PATH_KEY ++ ':' :: ' ' :: T)
          ++ '\n' :: ((k ++ ':' :: ' ' :: v) ++ '\n' :: rest2)) fs .ok
        = .error fs) := by
  refine ⟨?_, ?_, ?_⟩
  · rw [processSave_parse fs T szs rest .ok hT hszs, hn]
  · intro k v rest2 hk hv hkp
    have hnl : ∀ c ∈ k ++ ':' :: ' ' :: v, c ≠ '\n' :=
      keyval_no_nl (goodVal_no_nl hk) hv
    simp only [processSave]
    rw [readline_append _ hnl]
    simp only
    rw [parse_line_keyval hk hv]
    rw [show unpack2 [k, v] = some (k, v) from rfl]
    simp only
    rcases hup : unpack2 (parse_line (readline rest2).1) with _ | ⟨dk, dv⟩
    · rfl
    · simp only
      rw [if_pos (Or.inl hkp)]
  · intro k v rest2 hk hv hkd
    have hnl1 : ∀ c ∈ PATH_KEY ++ ':' :: ' ' :: T, c ≠ '\n' :=
      keyval_no_nl (by decide) hT
    have hnl2 : ∀ c ∈ k ++ ':' :: ' ' :: v, c ≠ '\n' :=
      keyval_no_nl (goodVal_no_nl hk) hv
    simp only [processSave]
    rw [readline_append _ hnl1]
    simp only
    rw [parse_line_keyval PATH_KEY_goodVal hT]
    simp only [unpack2]
    rw [readline_append _ hnl2]
    simp only
    rw [parse_line_keyval hk hv]
    simp only [unpack2]
    rw [if_pos (Or.inr (Or.inr (Or.inl hkd)))]

/-- C4 amended witness: on an empty filesystem, the well-ordered frame
`token: f / data: 1 / X` writes `X` to `f`; the frame starting with
`data: 1` instead fails with the filesystem untouched; so does a frame
whose second line is `size: 1` instead of `data: 1`. -/
theorem save_frame_fixed_header_order_witness :
    processSave ("token: f\ndata: 1\nX".data) ([] : Fs) .ok
      = .ok ([("f".data, "X".data)], []) ∧
    processSave ("data: 1\nXtoken: f\n\n".data) ([] : Fs) .ok
      = .error ([] : Fs) ∧
    processSave ("token: f\nsize: 1\nX".data) ([] : Fs) .ok
      = .error ([] : Fs) := by
  have h := save_frame_fixed_header_order [] ("f".data) ("1".data)
    ("X".data) 1 (by decide) (by decide) (by decide)
  refine ⟨h.1, ?_, ?_⟩
  · exact h.2.1 ("data".data) ("1".data) ("Xtoken: f\n\n".data)
      (by decide) (by decide) (by decide)
  · exact h.2.2 ("size".data) ("1".data) ("X".data)
      (by decide) (by decide) (by decide)

/-- C3 counterexample: the claim says that when the local file does not
exist the outbound `open` frame carries no `data` header and no payload
bytes, only the command line, metadata header lines and the `.` line.
At a concrete input the frame actually sent contains the `data: 0` header
and a (blank) payload line before the terminator, and differs from the
frame the claim describes. -/
theorem open_frame_missing_file_has_data_header :
    open_atom ("h".data) ("/r".data) ("/p".data) none
      = ("open\ndisplay-name: h:/p\nreal-path: /r\ndata-on-save: yes\nre-activate: yes\ntoken: /p\ndata: 0\n\n.\n".data) ∧
    open_atom ("h".data) ("/r".data) ("/p".data) none
      ≠ ("open\ndisplay-name: h:/p\nreal-path: /r\ndata-on-save: yes\nre-activate: yes\ntoken: /p\n.\n".data) := by
  exact ⟨by decide, by decide⟩

/-- C3 amended: the `data` header is never omitted.  When the local file
does not exist, `send_open` emits exactly the same frame as for an empty
existing file: the metadata headers followed by `data: 0`, an empty
payload (so a blank line), and the terminating `.` line. -/
theorem open_frame_missing_file_sends_data_zero
    (hostname realpath path : List Char) :
    open_atom hostname realpath path none
      = open_atom hostname realpath path (some []) ∧
    open_atom hostname realpath path none
      = OPEN_CMD ++ '\n' ::
        ("display-name: ".data ++ hostname ++ ':' :: path ++ '\n' ::
        ("real-path: ".data ++ realpath ++ '\n' ::
        ("data-on-save: yes\n".data ++
        ("re-activate: yes\n".data ++
        ("token: ".data ++ path ++ '\n' ::
        ("data: 0\n\n.\n".data)))))) := by
  exact ⟨rfl, rfl⟩

/-- C6: for every filesystem state, the backup path chosen for a save is
the target path with `~` appended, re-appending `~` while a file already
exists at the candidate: the result is `path ++ "~" * (k + 1)` for some
`k`, no file exists at it (so the subsequent backup copy overwrites
nothing), and every shorter candidate that was probed is an existing
file. -/
theorem backup_probe_unused_name (fs : Fs) (path : List Char) :
    ∃ k, probe fs path = path ++ List.replicate (k + 1) '~' ∧
      isfile fs (probe fs path) = false ∧
      ((List.range k).all fun i =>
        isfile fs (path ++ List.replicate (i + 1) '~')) = true := by
  obtain ⟨k, h1, h2, h3⟩ := probe_spec fs path
  refine ⟨k, h1, h2, ?_⟩
  rw [List.all_eq_true]
  intro i hi
  exact h3 i (List.mem_range.mp hi)

/-- C7: `connect_atom` fails with `ConnectError` whenever the socket
cannot be opened or connected, the banner read fails (timeout or I/O
error), or the banner line is empty or absent — and on every such failure
no bytes at all have been sent to the remote side, so no frame precedes
the failure. -/
theorem connect_failure_raises_connect_error (inp : ConnectInput)
    (h : inp = .socketFail ∨ inp = .connectFail ∨ inp = .bannerFail ∨
      ∃ raw, inp = .banner raw ∧ pyStrip raw = []) :
    connect_atom inp = .error .connectError ∧
    ∀ hostname realpath path content stream fs,
      (mainFlow inp hostname realpath path content stream fs).sent = [] := by
  have hconn : connect_atom inp = .error .connectError := by
    rcases h with rfl | rfl | rfl | ⟨raw, rfl, hraw⟩
    · rfl
    · rfl
    · rfl
    · simp [connect_atom, hraw]
  refine ⟨hconn, fun hostname realpath path content stream fs => ?_⟩
  simp [mainFlow, hconn]

/-- C7 witness: a zero-length banner line.  Connection setup fails with
`ConnectError` and nothing has been sent. -/
theorem connect_failure_raises_connect_error_witness :
    connect_atom (.banner []) = .error .connectError ∧
    (mainFlow (.banner []) [] [] [] none [] []).sent = [] := by
  have h := connect_failure_raises_connect_error (.banner [])
    (Or.inr (Or.inr (Or.inr ⟨[], rfl, rfl⟩)))
  exact ⟨h.1, h.2 [] [] [] none [] []⟩

/-- C8: a `close` frame (indeed any non-blank, non-`save` command line)
terminates the command loop normally at once, performing no filesystem
read, write or delete: whatever filesystem state the preceding saves
produced is returned untouched.  In particular, over a stream holding
only a close frame, the loop ends with every file byte-identical to
before. -/
theorem close_frame_terminates_loop_untouched (fuel : Nat)
    (rest : List Char) (fs : Fs) (outs : List WriteOutcome) :
    handleAtom (fuel + 1) (CLOSE_CMD ++ '\n' :: rest) fs outs = .ok fs := by
  refine handleAtom_other fuel rest fs outs (by decide) ?_ ?_
  · rw [pyStrip_goodVal (show goodVal CLOSE_CMD = true from by decide)]
    decide
  · rw [pyStrip_goodVal (show goodVal CLOSE_CMD = true from by decide)]
    decide

/-- C9 (evidence of the resource leak): when the remote side accepts the
connection but then delivers an empty banner line, `connect_atom` raises
`ConnectError` after the socket has been acquired; `main`'s `sock` and
`atom` are still `None`, so its `finally` clause closes nothing.  The run
acquires one socket and releases zero — against the contract that the
handle is released exactly once on every exit path.  On a successful
banner the same flow acquires one and releases one. -/
theorem connect_banner_failure_leaks_socket :
    (mainFlow (.banner []) [] [] [] none [] []).acq = 1 ∧
    (mainFlow (.banner []) [] [] [] none [] []).rel = 0 ∧
    (mainFlow (.banner []) [] [] [] none [] []).result
      = .error .connectError ∧
    (mainFlow (.banner ['a']) [] [] [] none [] []).acq = 1 ∧
    (mainFlow (.banner ['a']) [] [] [] none [] []).rel = 1 := by
  refine ⟨rfl, rfl, rfl, rfl, rfl⟩

/-- C10: a save-frame header line whose value itself contains a colon
(such as `token: C:/file`) splits into three parts under
`__parse_line`'s `split(':', 2)` rather than a key and a value, so the
two-element unpacking raises and the loop rejects the frame with
`HandleError`, the filesystem untouched — a save for such a token is
never persisted. -/
theorem colon_valued_token_rejected (fuel : Nat) (v rest : List Char)
    (fs : Fs) (outs : List WriteOutcome) (hcol : ':' ∈ v)
    (hnl : ∀ c ∈ v, c ≠ '\n') :
    (parse_line (PATH_KEY ++ ':' :: ' ' :: v)).length = 3 ∧
    handleAtom (fuel + 1)
      (SAVE_CMD ++ '\n' :: ((PATH_KEY ++ ':' :: ' ' :: v) ++ '\n' :: rest))
      fs outs = .error fs := by
  have hlen : (parse_line (PATH_KEY ++ ':' :: ' ' :: v)).length = 3 :=
    parse_line_colon_value hcol
  have hnl1 : ∀ c ∈ PATH_KEY ++ ':' :: ' ' :: v, c ≠ '\n' := by
    intro c hc
    rcases List.mem_append.mp hc with h | h
    · exact (show ∀ x ∈ PATH_KEY, x ≠ '\n' from by decide) c h
    · rcases List.mem_cons.mp h with h | h
      · rw [h]; decide
      · rcases List.mem_cons.mp h with h | h
        · rw [h]; decide
        · exact hnl c h
  refine ⟨hlen, ?_⟩
  rw [handleAtom_save fuel]
  have hps : processSave ((PATH_KEY ++ ':' :: ' ' :: v) ++ '\n' :: rest) fs
      (outs.headD .ok) = .error fs := by
    simp only [processSave]
    rw [readline_append _ hnl1]
    simp only
    rw [unpack2_len3 hlen]
  rw [hps]

/-- C10 witness: the token value `C:/file`. -/
theorem colon_valued_token_rejected_witness :
    (parse_line ("token: C:/file".data)).length = 3 ∧
    handleAtom 1 ("save\ntoken: C:/file\ndata: 2\nab".data) ([] : Fs) []
      = .error ([] : Fs) := by
  have h := colon_valued_token_rejected 0 ("C:/file".data)
    ("data: 2\nab".data) [] [] (by decide) (by decide)
  exact ⟨h.1, h.2⟩

end Ratom
